import Mathlib

/-!
Verification of the update-propagation engine in
`src/script.js` of Tryops/update-based-conways-game-of-life.

The JavaScript source is shallowly embedded below.  Conventions:

* JS numbers used as coordinates are embedded as `Int`; the JS remainder
  operator `%` truncates toward zero, which is `Int.tmod`.
* The grid stores the truthiness of its entries (`0`/`false` dead,
  `1`/`true` alive); JS loose equality `!=` between `0`/`1` and booleans
  coincides with `Bool` disequality, and `acc += curr` sums truthiness.
* `updateCells` builds `nextGrid = grid.slice()`, a shallow copy: the row
  arrays are shared between `grid` and `nextGrid`, and `setCellInGrid`
  mutates those shared rows in place (no row is ever replaced).  Reads via
  `getCell` during the loop therefore observe all earlier writes of the
  same `step`, so the loop is embedded as a fold over a single grid state.
-/

namespace UpdateGol

/-- `const dimensions = {width: 50, height: 50}` — the configuration object.
The engine functions below take it as an explicit parameter (it is a
module-level constant in the source). -/
structure Dimensions where
  width : Int
  height : Int
deriving DecidableEq, Repr

/-- The source's fixed configuration: `{width: 50, height: 50}`. -/
def dimensions : Dimensions := ⟨50, 50⟩

/-- The grid `grid[x][y]`: outer list indexed by `x`, inner by `y`. -/
abbrev Grid := List (List Bool)

/-- `const rules = [[0,0,0,1,0,0,0,0,0], [0,0,1,1,0,0,0,0,0]]`
(entries are JS numbers used for their truthiness). -/
def rules : List (List Bool) :=
  [[false, false, false, true, false, false, false, false, false],
   [false, false, true, true, false, false, false, false, false]]

/-- A queue entry `{"x": …, "y": …}`. -/
structure Cell where
  x : Int
  y : Int
deriving DecidableEq, Repr

/-- `makeGrid(width, height)`: `width` rows of `height` dead cells (each
`for` loop runs `max 0 bound` times; a non-positive bound gives no rows). -/
def makeGrid (width height : Int) : Grid :=
  (List.range width.toNat).map fun _ => (List.range height.toNat).map fun _ => false

/-- `getCellObj(x, y)`: coordinate object normalized by
`(c % dim + dim) % dim` on each axis. -/
def getCellObj (dims : Dimensions) (x y : Int) : Cell :=
  ⟨(x.tmod dims.width + dims.width).tmod dims.width,
   (y.tmod dims.height + dims.height).tmod dims.height⟩

/-- `getCell(x, y)` reading from an explicit grid: the source reads the
module-level `grid` at the two normalized indices.  (An out-of-bounds JS
read yields `undefined`, which is falsy; `getD … false` mirrors that for
the well-formed grids exercised here.) -/
def getCell (dims : Dimensions) (grid : Grid) (x y : Int) : Bool :=
  (grid.getD ((x.tmod dims.width + dims.width).tmod dims.width).toNat []).getD
    ((y.tmod dims.height + dims.height).tmod dims.height).toNat false

/-- `setCellInGrid(thisGrid, x, y, state)`: raw, unnormalized write
`thisGrid[x][y] = state`. -/
def setCellInGrid (thisGrid : Grid) (x y : Int) (state : Bool) : Grid :=
  thisGrid.set x.toNat ((thisGrid.getD x.toNat []).set y.toNat state)

/-- `getNeighborCells(x, y)`: the 8 Moore neighbors in the source's fixed
order, each normalized by `getCellObj`. -/
def getNeighborCells (dims : Dimensions) (x y : Int) : List Cell :=
  [getCellObj dims (x+1) y,
   getCellObj dims (x+1) (y+1),
   getCellObj dims x (y+1),
   getCellObj dims (x-1) (y+1),
   getCellObj dims (x-1) y,
   getCellObj dims (x-1) (y-1),
   getCellObj dims x (y-1),
   getCellObj dims (x+1) (y-1)]

/-- `getNeighborStates(x, y)`: the states of the 8 neighbors. -/
def getNeighborStates (dims : Dimensions) (grid : Grid) (x y : Int) : List Bool :=
  (getNeighborCells dims x y).map fun cell => getCell dims grid cell.x cell.y

/-- `getNeighborCount(x, y)`: `reduce((acc, curr) => acc += curr, 0)`,
summing truthiness of the 8 neighbor states. -/
def getNeighborCount (dims : Dimensions) (grid : Grid) (x y : Int) : Nat :=
  (getNeighborStates dims grid x y).foldl (fun acc curr => acc + (if curr then 1 else 0)) 0

/-- The rule lookup `rules[oldState ? 1 : 0][count]` from `updateCells`. -/
def ruleLookup (ruleTable : List (List Bool)) (oldState : Bool) (count : Nat) : Bool :=
  (ruleTable.getD (if oldState then 1 else 0) []).getD count false

/-- Body of `queue.forEach(cell => …)` in `updateCells`.  Because
`nextGrid = grid.slice()` shares its row arrays with `grid`, the write
`setCellInGrid(nextGrid, …)` is visible to the `getCell` /
`getNeighborCount` reads of later iterations; the loop state is one grid of
cell contents plus the `nextQueue` accumulator. -/
def updateStep (dims : Dimensions) (ruleTable : List (List Bool))
    (st : Grid × List Cell) (cell : Cell) : Grid × List Cell :=
  let oldState := getCell dims st.1 cell.x cell.y
  let newState := ruleLookup ruleTable oldState (getNeighborCount dims st.1 cell.x cell.y)
  if newState ≠ oldState then
    (setCellInGrid st.1 cell.x cell.y newState, st.2 ++ getNeighborCells dims cell.x cell.y)
  else st

/-- Body of the `qu.forEach` in `cleanQueue`: push `cell` onto `unique`
unless some already-kept cell has the same raw `x` and `y`. -/
def cleanStep (unique : List Cell) (cell : Cell) : List Cell :=
  if unique.any (fun e => e.x == cell.x && e.y == cell.y) then unique
  else unique ++ [cell]

/-- `cleanQueue(qu)`: fold the dedup push over the queue. -/
def cleanQueue (qu : List Cell) : List Cell :=
  qu.foldl cleanStep []

/-- `updateCells()` as a function of the state it reads and writes: it
returns the pair (new `grid`, new `queue`). -/
def updateCells (dims : Dimensions) (ruleTable : List (List Bool))
    (grid : Grid) (queue : List Cell) : Grid × List Cell :=
  let st := queue.foldl (updateStep dims ruleTable) (grid, [])
  (st.1, cleanQueue st.2)

/-- A coordinate lies in the normalized range `[0, W) × [0, H)`. -/
def inRange (dims : Dimensions) (c : Cell) : Prop :=
  0 ≤ c.x ∧ c.x < dims.width ∧ 0 ≤ c.y ∧ c.y < dims.height

instance (dims : Dimensions) (c : Cell) : Decidable (inRange dims c) := by
  unfold inRange; infer_instance

/-- The grid has exactly the configured `width × height` shape. -/
def gridWF (dims : Dimensions) (g : Grid) : Prop :=
  g.length = dims.width.toNat ∧ ∀ row ∈ g, row.length = dims.height.toNat

instance (dims : Dimensions) (g : Grid) : Decidable (gridWF dims g) := by
  unfold gridWF; infer_instance

/-! Concrete instances used by counterexamples and witnesses. -/

/-- A 5×5 configuration (the spec's blinker scenario). -/
def dims5 : Dimensions := ⟨5, 5⟩

/-- The 5×5 grid whose alive cells are exactly (1,2), (2,2), (3,2). -/
def g0 : Grid :=
  [[false, false, false, false, false],
   [false, false, true, false, false],
   [false, false, true, false, false],
   [false, false, true, false, false],
   [false, false, false, false, false]]

/-- The three blinker cells in one order. -/
def qA : List Cell := [⟨1,2⟩, ⟨2,2⟩, ⟨3,2⟩]

/-- The same three cells with the first two swapped. -/
def qB : List Cell := [⟨2,2⟩, ⟨1,2⟩, ⟨3,2⟩]

/-- The blinker cells plus all of their neighbors (the spec's scenario
queue). -/
def qC2 : List Cell :=
  qA ++ getNeighborCells dims5 1 2 ++ getNeighborCells dims5 2 2 ++ getNeighborCells dims5 3 2

/-! Arithmetic facts about the wrap normalization `(c % dim + dim) % dim`,
where JS `%` is the truncated remainder `Int.tmod`. -/

theorem tmod_lower_bound (x : Int) {d : Int} (hd : 0 < d) : -d < x.tmod d := by
  cases x with
  | ofNat m =>
      have h0 : (0:Int) ≤ (Int.ofNat m).tmod d := Int.tmod_nonneg d (Int.ofNat_nonneg m)
      omega
  | negSucc m =>
      cases d with
      | ofNat n =>
          have hn : 0 < n := Int.ofNat_pos.mp hd
          have he : Int.tmod (Int.negSucc m) (Int.ofNat n) = -Int.ofNat ((m+1) % n) := rfl
          rw [he]
          have h2 : (m+1) % n < n := Nat.mod_lt _ hn
          simp only [Int.ofNat_eq_natCast] at *
          omega
      | negSucc n => exact absurd hd (Int.negSucc_lt_zero n).asymm

theorem tmod_emod (x d : Int) : (x.tmod d) % d = x % d := by
  rw [Int.tmod_def]
  have h : x - d * x.tdiv d = x + d * (-(x.tdiv d)) := by ring
  rw [h, Int.add_mul_emod_self_left]

theorem normalize_eq_emod {d : Int} (hd : 0 < d) (x : Int) :
    (x.tmod d + d).tmod d = x % d := by
  have h1 : 0 ≤ x.tmod d + d := by have := tmod_lower_bound x hd; omega
  rw [Int.tmod_eq_emod h1 (le_of_lt hd)]
  have h2 : x.tmod d + d = x.tmod d + d * 1 := by ring
  rw [h2, Int.add_mul_emod_self_left, tmod_emod]

theorem normalize_nonneg {d : Int} (hd : 0 < d) (x : Int) : 0 ≤ (x.tmod d + d).tmod d := by
  rw [normalize_eq_emod hd]
  exact Int.emod_nonneg x (by omega)

theorem normalize_lt {d : Int} (hd : 0 < d) (x : Int) : (x.tmod d + d).tmod d < d := by
  rw [normalize_eq_emod hd]
  exact Int.emod_lt_of_pos x hd

theorem normalize_period {d : Int} (hd : 0 < d) (x k : Int) :
    ((x + k * d).tmod d + d).tmod d = (x.tmod d + d).tmod d := by
  rw [normalize_eq_emod hd, normalize_eq_emod hd, Int.add_mul_emod_self]

theorem normalize_ne {d : Int} (hd : 0 < d) {a b : Int} (h : ¬ d ∣ (a - b)) :
    (a.tmod d + d).tmod d ≠ (b.tmod d + d).tmod d := by
  rw [normalize_eq_emod hd, normalize_eq_emod hd]
  intro he
  exact h (Int.dvd_of_emod_eq_zero (Int.emod_eq_emod_iff_emod_sub_eq_zero.mp he))

theorem not_dvd_small {d c : Int} (h1 : c ≠ 0) (h2 : c < d) (h3 : -d < c) : ¬ d ∣ c := by
  intro hdvd
  rcases h1.lt_or_lt with hc | hc
  · have h4 : d ∣ -c := dvd_neg.mpr hdvd
    have h5 := Int.le_of_dvd (by omega) h4
    omega
  · have h5 := Int.le_of_dvd hc hdvd
    omega

theorem inRange_getCellObj (dims : Dimensions) (hW : 0 < dims.width) (hH : 0 < dims.height)
    (x y : Int) : inRange dims (getCellObj dims x y) := by
  unfold inRange getCellObj
  exact ⟨normalize_nonneg hW x, normalize_lt hW x, normalize_nonneg hH y, normalize_lt hH y⟩

/-- C5: for positive dimensions the normalization `((c % dim) + dim) % dim`
used by the cell read lands in `[0, W) × [0, H)`, and `getCell` is invariant
under shifting `x` by `k·W` and `y` by `k·H`. -/
theorem C5_toroidal_wrap (dims : Dimensions) (g : Grid) (x y k : Int)
    (hW : 0 < dims.width) (hH : 0 < dims.height) :
    inRange dims (getCellObj dims x y) ∧
    getCell dims g (x + k * dims.width) (y + k * dims.height) = getCell dims g x y := by
  refine ⟨inRange_getCellObj dims hW hH x y, ?_⟩
  unfold getCell
  rw [normalize_period hW, normalize_period hH]

/-- C5 witness: the wrap facts evaluated at `W = H = 5`, `(x, y) = (-7, 12)`,
`k = -2`. -/
theorem C5_toroidal_wrap_witness :
    inRange dims5 (getCellObj dims5 (-7) 12) ∧
    getCell dims5 g0 (-7 + -2 * dims5.width) (12 + -2 * dims5.height) = getCell dims5 g0 (-7) 12 :=
  C5_toroidal_wrap dims5 g0 (-7) 12 (-2) (by decide) (by decide)

theorem foldl_indicator_le (l : List Bool) : ∀ n : Nat,
    l.foldl (fun acc curr => acc + (if curr then 1 else 0)) n ≤ n + l.length := by
  induction l with
  | nil => intro n; simp
  | cons b l ih =>
      intro n
      simp only [List.foldl_cons, List.length_cons]
      cases b
      · have he : (n + if false then 1 else 0) = n := rfl
        rw [he]
        have h := ih n
        omega
      · have he : (n + if true then 1 else 0) = n + 1 := rfl
        rw [he]
        have h := ih (n + 1)
        omega

theorem getNeighborCount_le_eight (dims : Dimensions) (g : Grid) (x y : Int) :
    getNeighborCount dims g x y ≤ 8 := by
  unfold getNeighborCount
  have h := foldl_indicator_le (getNeighborStates dims g x y) 0
  have hl : (getNeighborStates dims g x y).length = 8 := by
    simp [getNeighborStates, getNeighborCells]
  omega

theorem getNeighborCells_pairwise (dims : Dimensions) (hW : 3 ≤ dims.width)
    (hH : 3 ≤ dims.height) (x y : Int) :
    (getNeighborCells dims x y).Pairwise (fun a b => a ≠ b) := by
  have hW0 : 0 < dims.width := by omega
  have hH0 : 0 < dims.height := by omega
  have hx1 : ((x+1).tmod dims.width + dims.width).tmod dims.width ≠
      (x.tmod dims.width + dims.width).tmod dims.width :=
    normalize_ne hW0 (not_dvd_small (by omega) (by omega) (by omega))
  have hx2 : ((x+1).tmod dims.width + dims.width).tmod dims.width ≠
      ((x-1).tmod dims.width + dims.width).tmod dims.width :=
    normalize_ne hW0 (not_dvd_small (by omega) (by omega) (by omega))
  have hx3 : (x.tmod dims.width + dims.width).tmod dims.width ≠
      ((x-1).tmod dims.width + dims.width).tmod dims.width :=
    normalize_ne hW0 (not_dvd_small (by omega) (by omega) (by omega))
  have hy1 : ((y+1).tmod dims.height + dims.height).tmod dims.height ≠
      (y.tmod dims.height + dims.height).tmod dims.height :=
    normalize_ne hH0 (not_dvd_small (by omega) (by omega) (by omega))
  have hy2 : ((y+1).tmod dims.height + dims.height).tmod dims.height ≠
      ((y-1).tmod dims.height + dims.height).tmod dims.height :=
    normalize_ne hH0 (not_dvd_small (by omega) (by omega) (by omega))
  have hy3 : (y.tmod dims.height + dims.height).tmod dims.height ≠
      ((y-1).tmod dims.height + dims.height).tmod dims.height :=
    normalize_ne hH0 (not_dvd_small (by omega) (by omega) (by omega))
  simp only [getNeighborCells, getCellObj, List.pairwise_cons, List.mem_cons,
    List.not_mem_nil, or_false, List.mem_singleton, ne_eq, Cell.mk.injEq, not_and,
    List.Pairwise.nil]
  refine ⟨?_, ?_, ?_, ?_, ?_, ?_, ?_, by simp⟩ <;> intro b hb <;>
    rcases hb with rfl | rfl | rfl | rfl | rfl | rfl | rfl <;>
    simp only [Cell.mk.injEq, not_and] <;> tauto

/-- C6: for `W, H ≥ 3` the neighbor function returns exactly 8 pairwise
distinct normalized coordinates, in exactly the fixed offset order
(+1,0), (+1,+1), (0,+1), (−1,+1), (−1,0), (−1,−1), (0,−1), (+1,−1)
applied to `(x, y)` with toroidal wrap, and the live-neighbor count is at
most 8 (it is a `Nat`, hence at least 0). -/
theorem C6_neighbor_structure (dims : Dimensions) (g : Grid) (x y : Int)
    (hW : 3 ≤ dims.width) (hH : 3 ≤ dims.height) :
    (getNeighborCells dims x y).length = 8 ∧
    (getNeighborCells dims x y).Pairwise (fun a b => a ≠ b) ∧
    (∀ c ∈ getNeighborCells dims x y, inRange dims c) ∧
    getNeighborCells dims x y =
      [((1:Int),(0:Int)), (1,1), (0,1), (-1,1), (-1,0), (-1,-1), (0,-1), (1,-1)].map
        (fun o => getCellObj dims (x + o.1) (y + o.2)) ∧
    getNeighborCount dims g x y ≤ 8 := by
  refine ⟨by simp [getNeighborCells], getNeighborCells_pairwise dims hW hH x y, ?_, ?_,
    getNeighborCount_le_eight dims g x y⟩
  · intro c hc
    simp only [getNeighborCells, List.mem_cons, List.not_mem_nil, or_false] at hc
    rcases hc with rfl | rfl | rfl | rfl | rfl | rfl | rfl | rfl <;>
      exact inRange_getCellObj dims (by omega) (by omega) _ _
  · simp [getNeighborCells, getCellObj, sub_eq_add_neg]

/-- C6 witness: the neighbor structure evaluated on the 5×5 grid at
`(x, y) = (0, 0)`. -/
theorem C6_neighbor_structure_witness :
    (getNeighborCells dims5 0 0).length = 8 ∧
    (getNeighborCells dims5 0 0).Pairwise (fun a b => a ≠ b) ∧
    (∀ c ∈ getNeighborCells dims5 0 0, inRange dims5 c) ∧
    getNeighborCells dims5 0 0 =
      [((1:Int),(0:Int)), (1,1), (0,1), (-1,1), (-1,0), (-1,-1), (0,-1), (1,-1)].map
        (fun o => getCellObj dims5 (0 + o.1) (0 + o.2)) ∧
    getNeighborCount dims5 g0 0 0 ≤ 8 :=
  C6_neighbor_structure dims5 g0 0 0 (by decide) (by decide)

/-- C7: the default rule table is the classical Game of Life transition:
a dead cell becomes alive exactly when the neighbor count is 3, a live cell
stays alive exactly when it is 2 or 3. -/
theorem C7_default_rules_classical : ∀ n : Nat, n ≤ 8 →
    (ruleLookup rules false n = true ↔ n = 3) ∧
    (ruleLookup rules true n = true ↔ (n = 2 ∨ n = 3)) := by decide

/-- C7 witness: the rule lookups evaluated at neighbor count 3. -/
theorem C7_default_rules_classical_witness :
    (ruleLookup rules false 3 = true ↔ 3 = 3) ∧
    (ruleLookup rules true 3 = true ↔ (3 = 2 ∨ 3 = 3)) :=
  C7_default_rules_classical 3 (by decide)

/-- C4: a `step()` with an empty input queue returns the grid unchanged and
an empty next queue. -/
theorem C4_empty_queue_noop (dims : Dimensions) (ruleTable : List (List Bool)) (g : Grid) :
    updateCells dims ruleTable g [] = (g, []) := rfl

/-! Deduplication (`cleanQueue`) lemmas. -/

theorem cleanStep_cond (u : List Cell) (c : Cell) :
    (u.any fun e => e.x == c.x && e.y == c.y) = true ↔ c ∈ u := by
  rw [List.any_eq_true]
  constructor
  · rintro ⟨e, he, hp⟩
    simp only [Bool.and_eq_true, beq_iff_eq] at hp
    have hec : e = c := by
      cases e
      cases c
      simp_all
    rwa [hec] at he
  · intro hc
    exact ⟨c, hc, by simp⟩

theorem cleanStep_eq (u : List Cell) (c : Cell) :
    cleanStep u c = if c ∈ u then u else u ++ [c] := by
  unfold cleanStep
  by_cases hc : c ∈ u
  · rw [if_pos ((cleanStep_cond u c).mpr hc), if_pos hc]
  · rw [if_neg (fun h => hc ((cleanStep_cond u c).mp h)), if_neg hc]

theorem mem_cleanStep (u : List Cell) (a c : Cell) :
    c ∈ cleanStep u a ↔ c ∈ u ∨ c = a := by
  rw [cleanStep_eq]
  by_cases h : a ∈ u
  · rw [if_pos h]
    constructor
    · exact Or.inl
    · rintro (hc | rfl)
      · exact hc
      · exact h
  · rw [if_neg h]
    simp

theorem mem_foldl_cleanStep (c : Cell) :
    ∀ (qu u : List Cell), c ∈ qu.foldl cleanStep u ↔ c ∈ u ∨ c ∈ qu := by
  intro qu
  induction qu with
  | nil => intro u; simp
  | cons a qu ih =>
      intro u
      simp only [List.foldl_cons, ih (cleanStep u a), mem_cleanStep, List.mem_cons]
      tauto

theorem mem_cleanQueue (c : Cell) (qu : List Cell) : c ∈ cleanQueue qu ↔ c ∈ qu := by
  unfold cleanQueue
  rw [mem_foldl_cleanStep]
  simp

theorem foldl_cleanStep_sublist :
    ∀ (qu u : List Cell), List.Sublist (qu.foldl cleanStep u) (u ++ qu) := by
  intro qu
  induction qu with
  | nil => intro u; simp
  | cons a qu ih =>
      intro u
      simp only [List.foldl_cons]
      refine (ih (cleanStep u a)).trans ?_
      rw [cleanStep_eq]
      by_cases h : a ∈ u
      · rw [if_pos h]
        exact (List.sublist_cons_self a qu).append_left u
      · rw [if_neg h, List.append_assoc, List.singleton_append]

theorem cleanQueue_sublist (qu : List Cell) : List.Sublist (cleanQueue qu) qu :=
  foldl_cleanStep_sublist qu []

theorem foldl_cleanStep_nodup :
    ∀ (qu u : List Cell), u.Nodup → (qu.foldl cleanStep u).Nodup := by
  intro qu
  induction qu with
  | nil => intro u hu; exact hu
  | cons a qu ih =>
      intro u hu
      simp only [List.foldl_cons]
      refine ih (cleanStep u a) ?_
      rw [cleanStep_eq]
      by_cases h : a ∈ u
      · rw [if_pos h]; exact hu
      · rw [if_neg h]
        simp [List.nodup_append, hu, h]

theorem cleanQueue_nodup (qu : List Cell) : (cleanQueue qu).Nodup :=
  foldl_cleanStep_nodup qu [] (by simp)

theorem foldl_cleanStep_of_nodup :
    ∀ (l u : List Cell), l.Nodup → (∀ a ∈ l, a ∉ u) → l.foldl cleanStep u = u ++ l := by
  intro l
  induction l with
  | nil => intro u _ _; simp
  | cons a l ih =>
      intro u hn hd
      simp only [List.foldl_cons]
      have ha : a ∉ u := hd a (by simp)
      rw [cleanStep_eq, if_neg ha]
      rw [ih (u ++ [a]) hn.of_cons ?_]
      · simp
      · intro b hb
        simp only [List.mem_append, List.mem_singleton]
        rintro (hbu | rfl)
        · exact hd b (by simp [hb]) hbu
        · exact (List.nodup_cons.mp hn).1 hb

theorem cleanQueue_idem (qu : List Cell) : cleanQueue (cleanQueue qu) = cleanQueue qu := by
  have h := foldl_cleanStep_of_nodup (cleanQueue qu) [] (cleanQueue_nodup qu) (by simp)
  calc cleanQueue (cleanQueue qu) = (cleanQueue qu).foldl cleanStep [] := rfl
    _ = [] ++ cleanQueue qu := h
    _ = cleanQueue qu := by simp

theorem foldl_cleanStep_filter (a : Cell) :
    ∀ (xs u : List Cell), a ∈ u →
      xs.foldl cleanStep u =
        (xs.filter fun e => !(e.x == a.x && e.y == a.y)).foldl cleanStep u := by
  intro xs
  induction xs with
  | nil => intro u _; rfl
  | cons b xs ih =>
      intro u hu
      rw [List.foldl_cons, List.filter_cons]
      by_cases hb : (b.x == a.x && b.y == a.y) = true
      · have hba : b = a := by
          simp only [Bool.and_eq_true, beq_iff_eq] at hb
          cases a
          cases b
          simp_all
        have hstep : cleanStep u b = u := by
          rw [cleanStep_eq, if_pos (hba ▸ hu)]
        rw [hstep, hb]
        simp only [Bool.not_true, Bool.false_eq_true, if_false]
        exact ih u hu
      · rw [Bool.not_eq_true] at hb
        rw [hb]
        simp only [Bool.not_false, if_true, List.foldl_cons]
        exact ih (cleanStep u b) ((mem_cleanStep u b a).mpr (Or.inl hu))

theorem cleanStep_cons_notdup (u : List Cell) (a b : Cell)
    (h : (a.x == b.x && a.y == b.y) = false) :
    cleanStep (a :: u) b = a :: cleanStep u b := by
  unfold cleanStep
  rw [List.any_cons, h, Bool.false_or]
  by_cases hc : (u.any fun e => e.x == b.x && e.y == b.y) = true
  · rw [if_pos hc, if_pos hc]
  · rw [if_neg hc, if_neg hc]
    rfl

theorem foldl_cleanStep_cons_free (a : Cell) :
    ∀ (xs u : List Cell), (∀ e ∈ xs, (a.x == e.x && a.y == e.y) = false) →
      xs.foldl cleanStep (a :: u) = a :: xs.foldl cleanStep u := by
  intro xs
  induction xs with
  | nil => intro u _; rfl
  | cons b xs ih =>
      intro u hfree
      rw [List.foldl_cons, cleanStep_cons_notdup u a b (hfree b (by simp)), List.foldl_cons]
      exact ih (cleanStep u b) fun e he => hfree e (by simp [he])

/-- The defining recursion of first-occurrence deduplication: the head is
kept and every later cell with the same raw coordinates is discarded. -/
theorem cleanQueue_cons (a : Cell) (xs : List Cell) :
    cleanQueue (a :: xs) = a :: cleanQueue (xs.filter fun e => !(e.x == a.x && e.y == a.y)) := by
  unfold cleanQueue
  rw [List.foldl_cons]
  have h1 : cleanStep [] a = [a] := by
    rw [cleanStep_eq, if_neg (List.not_mem_nil a)]
    rfl
  rw [h1, foldl_cleanStep_filter a xs [a] (by simp)]
  apply foldl_cleanStep_cons_free
  intro e he
  have h2 := (List.mem_filter.mp he).2
  simp only [Bool.not_eq_true'] at h2
  simp only [Bool.and_eq_false_iff, beq_eq_false_iff_ne, ne_eq] at h2 ⊢
  rcases h2 with h | h
  · exact Or.inl fun hh => h hh.symm
  · exact Or.inr fun hh => h hh.symm

/-- C8 (amended): `cleanQueue xs` is a duplicate-free subsequence of `xs`
with the same members, is idempotent, no two of its elements agree on both
raw coordinates, and it keeps the first occurrence of each coordinate: it
satisfies the defining recursion of first-occurrence dedup (keep the head,
discard its later raw-coordinate duplicates, recurse). -/
theorem C8_cleanQueue_dedup (xs : List Cell) :
    List.Sublist (cleanQueue xs) xs ∧
    (∀ c : Cell, c ∈ cleanQueue xs ↔ c ∈ xs) ∧
    cleanQueue (cleanQueue xs) = cleanQueue xs ∧
    (∀ (a : Cell) (ys : List Cell),
      cleanQueue (a :: ys) = a :: cleanQueue (ys.filter fun e => !(e.x == a.x && e.y == a.y))) ∧
    (cleanQueue xs).Pairwise (fun a b => ¬(a.x = b.x ∧ a.y = b.y)) := by
  refine ⟨cleanQueue_sublist xs, fun c => mem_cleanQueue c xs, cleanQueue_idem xs,
    fun a ys => cleanQueue_cons a ys, ?_⟩
  refine (cleanQueue_nodup xs).imp ?_
  intro a b hab hco
  apply hab
  cases a
  cases b
  simp_all

/-- C8 counterexample for the claim as stated: on the source's 50×50
configuration, `cleanQueue` keeps both `(0,0)` and `(50,0)`, two distinct
entries whose normalized coordinates coincide, because it compares raw
(not normalized) coordinates. -/
theorem C8_normalized_counterexample :
    cleanQueue [⟨0,0⟩, ⟨50,0⟩] = [⟨0,0⟩, ⟨50,0⟩] ∧
    getCellObj dimensions 50 0 = getCellObj dimensions 0 0 ∧
    (⟨0,0⟩ : Cell) ≠ ⟨50,0⟩ := by decide

/-! Lemmas about the engine loop (`updateStep` fold). -/

theorem updateStep_queue_cases (dims : Dimensions) (rt : List (List Bool))
    (st : Grid × List Cell) (a : Cell) :
    (updateStep dims rt st a).2 = st.2 ∨
    (updateStep dims rt st a).2 = st.2 ++ getNeighborCells dims a.x a.y := by
  unfold updateStep
  dsimp only
  by_cases h : ruleLookup rt (getCell dims st.1 a.x a.y) (getNeighborCount dims st.1 a.x a.y) ≠
      getCell dims st.1 a.x a.y
  · right
    rw [if_pos h]
  · left
    rw [if_neg h]

theorem updateStep_changed (dims : Dimensions) (rt : List (List Bool))
    (st : Grid × List Cell) (c : Cell)
    (h : ruleLookup rt (getCell dims st.1 c.x c.y) (getNeighborCount dims st.1 c.x c.y) ≠
      getCell dims st.1 c.x c.y) :
    updateStep dims rt st c =
      (setCellInGrid st.1 c.x c.y
          (ruleLookup rt (getCell dims st.1 c.x c.y) (getNeighborCount dims st.1 c.x c.y)),
       st.2 ++ getNeighborCells dims c.x c.y) := by
  unfold updateStep
  dsimp only
  rw [if_pos h]

theorem mem_foldl_updateStep (dims : Dimensions) (rt : List (List Bool)) (c : Cell) :
    ∀ (q : List Cell) (st : Grid × List Cell),
      c ∈ st.2 → c ∈ (q.foldl (updateStep dims rt) st).2 := by
  intro q
  induction q with
  | nil => intro st h; exact h
  | cons a q ih =>
      intro st h
      simp only [List.foldl_cons]
      apply ih
      rcases updateStep_queue_cases dims rt st a with he | he
      · rw [he]; exact h
      · rw [he]; exact List.mem_append_left _ h

theorem foldl_updateStep_sources (dims : Dimensions) (rt : List (List Bool)) :
    ∀ (q : List Cell) (st : Grid × List Cell) (c : Cell),
      c ∈ (q.foldl (updateStep dims rt) st).2 →
      c ∈ st.2 ∨ ∃ a b : Int, c ∈ getNeighborCells dims a b := by
  intro q
  induction q with
  | nil => intro st c h; exact Or.inl h
  | cons a q ih =>
      intro st c h
      simp only [List.foldl_cons] at h
      rcases ih _ c h with h2 | h2
      · rcases updateStep_queue_cases dims rt st a with he | he
        · rw [he] at h2
          exact Or.inl h2
        · rw [he] at h2
          rcases List.mem_append.mp h2 with h3 | h3
          · exact Or.inl h3
          · exact Or.inr ⟨a.x, a.y, h3⟩
      · exact Or.inr h2

/-- C3: if a queued cell `c` changes state when it is processed (its
computed next state differs from the state it reads at that point of the
loop), then all 8 of its toroidal Moore neighbors are members of the next
queue returned by `updateCells`, after deduplication. -/
theorem C3_change_enqueues_neighbors (dims : Dimensions) (rt : List (List Bool))
    (g : Grid) (q1 q2 : List Cell) (c : Cell)
    (hchange : ruleLookup rt (getCell dims (q1.foldl (updateStep dims rt) (g, [])).1 c.x c.y)
        (getNeighborCount dims (q1.foldl (updateStep dims rt) (g, [])).1 c.x c.y) ≠
      getCell dims (q1.foldl (updateStep dims rt) (g, [])).1 c.x c.y) :
    ∀ n ∈ getNeighborCells dims c.x c.y,
      n ∈ (updateCells dims rt g (q1 ++ c :: q2)).2 := by
  intro n hn
  unfold updateCells
  dsimp only
  rw [mem_cleanQueue, List.foldl_append]
  simp only [List.foldl_cons]
  apply mem_foldl_updateStep
  rw [updateStep_changed dims rt _ c hchange]
  exact List.mem_append_right _ hn

/-- C3 witness: on the 5×5 blinker, the queued cell (1,2) dies (1 live
neighbor), so its neighbor (2,2) is in the returned queue. -/
theorem C3_change_enqueues_neighbors_witness :
    (ruleLookup rules (getCell dims5 (([] : List Cell).foldl (updateStep dims5 rules) (g0, [])).1
          (1:Int) 2)
        (getNeighborCount dims5 (([] : List Cell).foldl (updateStep dims5 rules) (g0, [])).1 1 2) ≠
      getCell dims5 (([] : List Cell).foldl (updateStep dims5 rules) (g0, [])).1 1 2) ∧
    (⟨2,2⟩ : Cell) ∈ (updateCells dims5 rules g0 ([] ++ (⟨1,2⟩ : Cell) :: [])).2 :=
  ⟨by decide,
   C3_change_enqueues_neighbors dims5 rules g0 [] [] ⟨1,2⟩ (by decide) ⟨2,2⟩ (by decide)⟩

/-- C10: with positive dimensions, every coordinate the step places in the
next queue is already normalized (it comes from `getCellObj`), i.e. lies in
`[0, W) × [0, H)`; hence every engine-produced queue is in range. -/
theorem C10_next_queue_in_range (dims : Dimensions) (rt : List (List Bool))
    (g : Grid) (q : List Cell) (hW : 0 < dims.width) (hH : 0 < dims.height) :
    ∀ c ∈ (updateCells dims rt g q).2, inRange dims c := by
  intro c hc
  unfold updateCells at hc
  dsimp only at hc
  rw [mem_cleanQueue] at hc
  rcases foldl_updateStep_sources dims rt q (g, []) c hc with h | ⟨a, b, h⟩
  · simp at h
  · simp only [getNeighborCells, List.mem_cons, List.not_mem_nil, or_false] at h
    rcases h with rfl | rfl | rfl | rfl | rfl | rfl | rfl | rfl <;>
      exact inRange_getCellObj dims hW hH _ _

/-- C10 witness: on the 5×5 grid, the queue produced from processing (1,2)
contains (2,2), which is in range. -/
theorem C10_next_queue_in_range_witness :
    (0 < dims5.width ∧ 0 < dims5.height) ∧ inRange dims5 ⟨2,2⟩ :=
  ⟨⟨by decide, by decide⟩,
   C10_next_queue_in_range dims5 rules g0 [⟨1,2⟩] (by decide) (by decide) ⟨2,2⟩ (by decide)⟩

/-- C1 (refuted by the code): `qB` is a permutation of `qA`, yet one step on
the same 5×5 blinker grid yields different next grids, because the writes
through the shared row arrays of `nextGrid = grid.slice()` are visible to
the neighbor counts of later queue entries: (2,2) has 2 live neighbors in
the pre-step grid but only 1 after the queued cell (1,2) has been
processed. -/
theorem C1_order_dependence :
    List.Perm qA qB ∧
    getNeighborCount dims5 g0 2 2 = 2 ∧
    getNeighborCount dims5 (([⟨1,2⟩] : List Cell).foldl (updateStep dims5 rules) (g0, [])).1 2 2
      = 1 ∧
    (updateCells dims5 rules g0 qA).1 ≠ (updateCells dims5 rules g0 qB).1 := by decide

set_option maxRecDepth 4000 in
/-- C2 (refuted by the code): on the 5×5 blinker with the scenario queue,
one step returns the all-dead grid — in particular (2,2) is dead — instead
of the claimed vertical tri-cell {(2,1), (2,2), (2,3)}. -/
theorem C2_blinker_scenario_fails :
    (updateCells dims5 rules g0 qC2).1 = makeGrid 5 5 ∧
    getCell dims5 (updateCells dims5 rules g0 qC2).1 2 2 = false := by decide

/-- C9 (refuted by the code): construction performs no validation at all:
`makeGrid` with non-positive width silently returns the empty grid (the
`for` loops simply do not run), and the rule table is a hard-coded constant
(which does happen to have 9 entries per case). -/
theorem C9_construction_silently_accepts :
    makeGrid 0 5 = ([] : Grid) ∧ makeGrid (-3) 7 = ([] : Grid) ∧
    (rules.getD 0 []).length = 9 ∧ (rules.getD 1 []).length = 9 := by decide

end UpdateGol
